import Mathlib

/-!
Verification development for the `shoop` connection layer
(`src/connection.rs`): the crypto framing (`crypto::Handler::seal`,
`crypto::Handler::open`, `crypto::gen_key`), the `Transceiver`
implementations for `Client` and `ServerConnection`, the port-range
parser `PortRange::from`, and `Server::get_open_port`.

Bytes are modelled as `Nat` values, buffers as `List Nat`.  The
external AEAD primitive (`ring::aead::AES_256_GCM`) is not part of the
repository; it is modelled as an idealized authenticated cipher with
the interface constants of `AES_256_GCM` (32-byte key, 12-byte nonce,
16-byte tag, `max_overhead_len = 16`): encryption XORs a
key-and-nonce-determined stream into the plaintext, and the tag is a
16-byte value recomputed and compared on open, built so that it
detects every single-byte change of nonce, ciphertext or tag — the
contract `AES_256_GCM` provides.  Everything surrounding that
primitive (buffer arithmetic, length checks, asserts, copies, error
returns) is translated statement by statement from the Rust source.
Rust panics (failed `assert!`, out-of-bounds slice indexing,
`unimplemented!()`) are modelled as explicit `panicked` outcomes.
-/

namespace Shoop

/-- Constant `MAX_MESSAGE_SIZE` from `src/connection.rs` line 13. -/
def MAX_MESSAGE_SIZE : Nat := 1024000

namespace crypto

/-- Nonce length of `AES_256_GCM` (`ALGORITHM.nonce_len()`): 96 bits. -/
def nonceLen : Nat := 12

/-- Tag length of `AES_256_GCM`: 128 bits. -/
def tagLen : Nat := 16

/-- Worst-case seal overhead of `AES_256_GCM` (`ALGORITHM.max_overhead_len()`). -/
def maxOverheadLen : Nat := 16

/-- Key length of `AES_256_GCM` (`ALGORITHM.key_len()`): 256 bits. -/
def keyLen : Nat := 32

/-- Keystream byte `i` of the idealized cipher for a given key and nonce.
Any fixed function of `(key, nonce, i)` is adequate: no theorem below
depends on its definition, only on its determinism. -/
def ks (key nonce : List Nat) (i : Nat) : Nat :=
  (key.foldl (fun a b => a * 3 + b) 7 + nonce.foldl (fun a b => a * 5 + b) 11 + i * 131) % 256

/-- Pseudorandom byte `i` derived from the key, used in the tag. As with
`ks`, only determinism matters. -/
def prf (key : List Nat) (i : Nat) : Nat :=
  (key.foldl (fun a b => a * 3 + b) 13 + i * 17) % 256

/-- XOR the stream `f i, f (i+1), ...` into a byte list: the in-place
stream-cipher core of the idealized AEAD.  XORing is an involution, so
the same function encrypts and decrypts. -/
def mixAux (f : Nat → Nat) : Nat → List Nat → List Nat
  | _, [] => []
  | i, b :: rest => (b ^^^ f i) :: mixAux f (i + 1) rest

/-- Ciphertext of the idealized AEAD: plaintext XOR keystream. -/
def encryptBytes (key nonce p : List Nat) : List Nat :=
  mixAux (ks key nonce) 0 p

/-- Decryption of the idealized AEAD: the same XOR stream. -/
def decryptBytes (key nonce ct : List Nat) : List Nat :=
  mixAux (ks key nonce) 0 ct

/-- XOR-fold of a byte list, a checksum in which every single-bit change
of the input changes the result. -/
def xorFold (l : List Nat) : Nat :=
  l.foldr (fun a b => a ^^^ b) 0

/-- Authentication tag of the idealized AEAD over a 12-byte nonce and a
ciphertext: 12 bytes binding the nonce (each nonce byte XOR-masked by a
key byte) followed by 4 bytes binding the ciphertext and key.  A change
of any nonce byte changes the corresponding tag byte; a change of any
ciphertext byte changes byte 12 (the XOR-fold). -/
def tagBytes (key nonce ct : List Nat) : List Nat :=
  mixAux (prf key) 0 nonce ++ [xorFold ct, prf key 100, prf key 101, prf key 102]

/-- Outcome of `Handler::seal` (`src/connection.rs` lines 45-74).
`ok buf frameLen` is `Ok(frame_len)` together with the in-place rewritten
buffer; `err` is the `Err(())` branch (the spec's EncryptionFailure);
`panicked` models a failed `assert!` or an out-of-bounds
`copy_from_slice`. -/
inductive SealResult
  | ok (buf : List Nat) (frameLen : Nat)
  | err
  | panicked
deriving DecidableEq

/-- Model of `Handler::seal`.  The fresh random nonce drawn by
`self.rand.fill(&mut nonce)` is passed in as the `nonce` argument (the
caller of the model supplies the 12 random bytes).  Statement by
statement from the source: the `assert!(len <= buf.len() - max_suffix_len)`
(whose subtraction itself panics when `buf.len() < max_suffix_len`), the
temporary `sealed` vector, `aead::seal_in_place` (idealized, always
succeeding, producing `len + tagLen` bytes of ciphertext-plus-tag), the
copy of the nonce into `buf[..nonce_len]`, and the copy of the sealed
bytes into `buf[nonce_len..nonce_len+seal_len]`, which indexes out of
bounds — a panic — when `buf.len() < nonce_len + seal_len`. -/
def Handler.seal (key nonce buf : List Nat) (len : Nat) : SealResult :=
  if buf.length < maxOverheadLen then .panicked
  else if buf.length - maxOverheadLen < len then .panicked
  else if buf.length < nonceLen + (len + tagLen) then .panicked
  else
    .ok (nonce ++ (encryptBytes key nonce (buf.take len) ++
          (tagBytes key nonce (encryptBytes key nonce (buf.take len)) ++
            buf.drop (nonceLen + (len + tagLen)))))
        (nonceLen + (len + tagLen))

/-- Outcome of `Handler::open` (`src/connection.rs` lines 76-89).
`ok plain len` is `Ok(len)` with `plain` the `len` leading bytes the
buffer holds in place after a successful open; `err` carries the exact
`String` the source returns: "msg not long enough to contain nonce"
(the spec's FrameTooShort), "max message size exceeded" (MessageTooLarge)
or "decrypt failed" (DecryptionFailure). -/
inductive OpenResult
  | ok (plain : List Nat) (len : Nat)
  | err (msg : String)
deriving DecidableEq

/-- Model of `Handler::open`: the two length checks from the source, then
the idealized `aead::open_in_place` with `in_prefix_len = nonce_len`:
fail if fewer than `tagLen` bytes follow the nonce, recompute the tag
over the received nonce and ciphertext, compare it with the received
tag, and only on equality decrypt and return the plaintext length
`buf.len() - nonce_len - tag_len`. -/
def Handler.openFrame (key buf : List Nat) : OpenResult :=
  if buf.length < nonceLen then .err "msg not long enough to contain nonce"
  else if buf.length > MAX_MESSAGE_SIZE then .err "max message size exceeded"
  else
    let nonce := buf.take nonceLen
    let rest := buf.drop nonceLen
    if rest.length < tagLen then .err "decrypt failed"
    else
      let ct := rest.take (rest.length - tagLen)
      let tg := rest.drop (rest.length - tagLen)
      if tg = tagBytes key nonce ct then
        .ok (decryptBytes key nonce ct) (rest.length - tagLen)
      else .err "decrypt failed"

/-- Model of `crypto::gen_key` (`src/connection.rs` lines 28-33).  The
source allocates `vec![0u8; ALGORITHM.key_len()]` and calls
`rand.fill(&mut keybytes)` WITHOUT inspecting the returned `Result`
(no `?`, no `unwrap`), then returns the vector.  `fillOk` says whether
the secure random source succeeded, `randomBytes` are the 32 bytes it
would write on success; on failure the zero-initialized vector is
returned unchanged and the error is silently dropped — the function's
return type (`Vec<u8>`, here `List Nat`) has no error channel at all. -/
def gen_key (fillOk : Bool) (randomBytes : List Nat) : List Nat :=
  if fillOk then randomBytes else List.replicate keyLen 0

end crypto

/-- Outcome of a `Transceiver` method (`send`, `recv`) of `Client`
(`src/connection.rs` lines 311-325) or `ServerConnection` (lines
368-382).  `panicked` models `unimplemented!()`. -/
inductive TransceiverOutcome
  | okSend
  | okRecv (plain : List Nat) (len : Nat)
  | udtError (msg : String)
  | panicked
deriving DecidableEq

/-- Model of `<Client as Transceiver>::send`: the body is
`unimplemented!()` (line 313); the commented-out call to `send` is dead
code. -/
def Client.send (buf : List Nat) : TransceiverOutcome := .panicked

/-- Model of `<Client as Transceiver>::recv`: the body is
`unimplemented!()` (line 318). -/
def Client.recv (buf : List Nat) : TransceiverOutcome := .panicked

/-- Model of `<ServerConnection as Transceiver>::send`: the body is
`unimplemented!()` (line 370). -/
def ServerConnection.send (buf : List Nat) : TransceiverOutcome := .panicked

/-- Model of `<ServerConnection as Transceiver>::recv`: the body is
`unimplemented!()` (line 375). -/
def ServerConnection.recv (buf : List Nat) : TransceiverOutcome := .panicked

/-- The `PortRange` struct: two `u16` bounds.  The source field `end` is
a reserved word in Lean and is rendered `stop`. -/
structure PortRange where
  start : Nat
  stop : Nat
deriving DecidableEq

/-- Model of `PortRange::new` (`src/connection.rs` lines 385-394):
reject `start > end`, otherwise build the range. -/
def PortRange.new (start stop : Nat) : Except String PortRange :=
  if start > stop then .error "range end must be greater than or equal to start"
  else .ok ⟨start, stop⟩

/-- Model of Rust's `str::split('-')` on a character list: splits at
every `'-'`, keeping empty sections (so `"" ↦ [""]`, `"a-" ↦ ["a", ""]`),
exactly as the iterator the source collects into `sections`. -/
def splitDash : List Char → List Char → List (List Char)
  | [], acc => [acc.reverse]
  | c :: rest, acc =>
    if c = '-' then acc.reverse :: splitDash rest [] else splitDash rest (c :: acc)

/-- Model of Rust's `str::parse::<u16>()`: an optional leading `'+'`,
then one or more decimal digits, rejecting the empty string, any
non-digit, and values above `u16::MAX = 65535`. -/
def parseU16 (s : List Char) : Option Nat :=
  let t := match s with
    | '+' :: rest => rest
    | _ => s
  if t.isEmpty then none
  else if t.all Char.isDigit then
    let n := t.foldl (fun a c => a * 10 + (c.toNat - 48)) 0
    if n ≤ 65535 then some n else none
  else none

/-- Model of `PortRange::from` (`src/connection.rs` lines 396-407):
split on `'-'`, require exactly two sections, parse both as `u16`, then
delegate to `PortRange::new`. -/
def PortRange.fromString (s : String) : Except String PortRange :=
  match splitDash s.data [] with
  | [a, b] =>
    match parseU16 a, parseU16 b with
    | some st, some en => PortRange.new st en
    | _, _ => .error "improperly formatted port range"
  | _ => .error "Range must be specified in the form of \"<start>-<end>\""

/-- Model of `Server::get_open_port` (`src/connection.rs` lines 328-335).
The effectful `UdpSocket::bind` probe is abstracted as the oracle
`bindOk`; the loop `for p in range.start..range.end` visits exactly
`[start, end)` in order and returns the first port the oracle accepts,
else `Err(())`. -/
def Server.get_open_port (bindOk : Nat → Bool) (r : PortRange) : Except Unit Nat :=
  match (List.range' r.start (r.stop - r.start)).find? bindOk with
  | some p => .ok p
  | none => .error ()

/-! Helper lemmas about the idealized cipher primitives. -/

namespace crypto

theorem mixAux_length (f : Nat → Nat) (i : Nat) (l : List Nat) :
    (mixAux f i l).length = l.length := by
  induction l generalizing i with
  | nil => rfl
  | cons b rest ih => simp [mixAux, ih]

theorem mixAux_mixAux (f : Nat → Nat) (i : Nat) (l : List Nat) :
    mixAux f i (mixAux f i l) = l := by
  induction l generalizing i with
  | nil => rfl
  | cons b rest ih => simp [mixAux, ih, Nat.xor_assoc]

theorem xorLeftComm (a b c : Nat) : a ^^^ (b ^^^ c) = b ^^^ (a ^^^ c) := by
  rw [← Nat.xor_assoc, Nat.xor_comm a b, Nat.xor_assoc]

theorem mixAux_set (f : Nat → Nat) (i j : Nat) (l : List Nat) (v : Nat) :
    mixAux f i (l.set j v) = (mixAux f i l).set j (v ^^^ f (i + j)) := by
  induction l generalizing i j with
  | nil => rfl
  | cons b rest ih =>
    cases j with
    | zero => simp [mixAux]
    | succ j' =>
      simp only [List.set_cons_succ, mixAux, ih]
      have e : i + 1 + j' = i + (j' + 1) := by omega
      rw [e]

theorem getD_append_left {l₁ l₂ : List Nat} {j : Nat} (h : j < l₁.length) :
    (l₁ ++ l₂).getD j 0 = l₁.getD j 0 := by
  simp [List.getD_eq_getElem?_getD, List.getElem?_append_left h]

theorem getD_append_right {l₁ l₂ : List Nat} {j : Nat} (h : l₁.length ≤ j) :
    (l₁ ++ l₂).getD j 0 = l₂.getD (j - l₁.length) 0 := by
  simp [List.getD_eq_getElem?_getD, List.getElem?_append_right h]

theorem getD_set_self {l : List Nat} {j : Nat} (h : j < l.length) (v : Nat) :
    (l.set j v).getD j 0 = v := by
  simp [List.getD_eq_getElem?_getD, List.getElem?_set_self h]

theorem getD_mixAux (f : Nat → Nat) (i j : Nat) (l : List Nat) (h : j < l.length) :
    (mixAux f i l).getD j 0 = l.getD j 0 ^^^ f (i + j) := by
  induction l generalizing i j with
  | nil => simp at h
  | cons b rest ih =>
    cases j with
    | zero => simp [mixAux]
    | succ j' =>
      have h' : j' < rest.length := by simpa using h
      simp only [mixAux, List.getD_cons_succ, ih (i + 1) j' h']
      have e : i + 1 + j' = i + (j' + 1) := by omega
      rw [e]

theorem ne_of_getD_ne {l₁ l₂ : List Nat} (j : Nat) (h : l₁.getD j 0 ≠ l₂.getD j 0) :
    l₁ ≠ l₂ := by
  intro he; exact h (he ▸ rfl)

theorem xor_pow_ne {a p : Nat} (hp : p ≠ 0) : a ^^^ p ≠ a := by
  intro h
  have : a ^^^ p = a ^^^ 0 := by simpa using h
  exact hp (Nat.xor_right_inj.mp this)

theorem set_getD_xor_ne {l : List Nat} {j p : Nat} (hj : j < l.length) (hp : p ≠ 0) :
    l.set j (l.getD j 0 ^^^ p) ≠ l := by
  apply ne_of_getD_ne j
  rw [getD_set_self hj]
  exact xor_pow_ne hp

theorem mixAux_set_xor_ne (f : Nat → Nat) (i : Nat) {l : List Nat} {j p : Nat}
    (hj : j < l.length) (hp : p ≠ 0) :
    mixAux f i (l.set j (l.getD j 0 ^^^ p)) ≠ mixAux f i l := by
  rw [mixAux_set]
  apply ne_of_getD_ne j
  rw [getD_set_self (by rw [mixAux_length]; exact hj), getD_mixAux _ _ _ _ hj]
  rw [Nat.xor_comm (l.getD j 0) p, Nat.xor_assoc, Nat.xor_comm p _]
  exact xor_pow_ne hp

theorem xorFold_cons (b : Nat) (l : List Nat) : xorFold (b :: l) = b ^^^ xorFold l := rfl

theorem xorFold_set {l : List Nat} {j p : Nat} (hj : j < l.length) :
    xorFold (l.set j (l.getD j 0 ^^^ p)) = xorFold l ^^^ p := by
  induction l generalizing j with
  | nil => simp at hj
  | cons b rest ih =>
    cases j with
    | zero =>
      simp only [List.set_cons_zero, List.getD_cons_zero, xorFold_cons]
      simp [Nat.xor_assoc, Nat.xor_comm, xorLeftComm]
    | succ j' =>
      have h' : j' < rest.length := by simpa using hj
      simp only [List.set_cons_succ, List.getD_cons_succ, xorFold_cons, ih h']
      simp [Nat.xor_assoc, Nat.xor_comm, xorLeftComm]

theorem encryptBytes_length (key nonce p : List Nat) :
    (encryptBytes key nonce p).length = p.length := mixAux_length _ _ _

theorem decryptBytes_encryptBytes (key nonce p : List Nat) :
    decryptBytes key nonce (encryptBytes key nonce p) = p := mixAux_mixAux _ _ _

theorem tagBytes_length (key : List Nat) {nonce : List Nat} (ct : List Nat)
    (hn : nonce.length = 12) : (tagBytes key nonce ct).length = 16 := by
  simp [tagBytes, mixAux_length, hn]

theorem Handler.seal_eq_ok (key nonce buf : List Nat) (len : Nat)
    (h : len + 28 ≤ buf.length) :
    Handler.seal key nonce buf len =
      .ok (nonce ++ (encryptBytes key nonce (buf.take len) ++
            (tagBytes key nonce (encryptBytes key nonce (buf.take len)) ++
              buf.drop (len + 28))))
          (len + 28) := by
  have e : 12 + (len + 16) = len + 28 := by omega
  simp only [Handler.seal, maxOverheadLen, nonceLen, tagLen, e]
  rw [if_neg (by omega), if_neg (by omega), if_neg (by omega)]

theorem Handler.seal_panicked (key nonce buf : List Nat) (len : Nat)
    (h : buf.length < len + 28) :
    Handler.seal key nonce buf len = .panicked := by
  simp only [Handler.seal, maxOverheadLen, nonceLen, tagLen]
  by_cases h1 : buf.length < 16
  · rw [if_pos h1]
  · rw [if_neg h1]
    by_cases h2 : buf.length - 16 < len
    · rw [if_pos h2]
    · rw [if_neg h2, if_pos (by omega)]

theorem Handler.openFrame_append (key : List Nat) {nonce ct tg : List Nat}
    (hn : nonce.length = 12) (htg : tg.length = 16)
    (hmax : ct.length + 28 ≤ MAX_MESSAGE_SIZE) :
    Handler.openFrame key (nonce ++ (ct ++ tg)) =
      if tg = tagBytes key nonce ct then .ok (decryptBytes key nonce ct) ct.length
      else .err "decrypt failed" := by
  have hlen : (nonce ++ (ct ++ tg)).length = ct.length + 28 := by
    simp [hn, htg]; omega
  have ht : (nonce ++ (ct ++ tg)).take nonceLen = nonce := by
    have : nonceLen = nonce.length := by rw [hn]; rfl
    rw [this, List.take_append_of_le_length (Nat.le_refl _), List.take_length]
  have hd : (nonce ++ (ct ++ tg)).drop nonceLen = ct ++ tg := by
    have : nonceLen = nonce.length := by rw [hn]; rfl
    rw [this, List.drop_append_of_le_length (Nat.le_refl _), List.drop_length,
      List.nil_append]
  have hrl : (ct ++ tg).length = ct.length + 16 := by simp [htg]
  have e16 : ct.length + 16 - tagLen = ct.length := by simp [tagLen]
  have hctake : (ct ++ tg).take ct.length = ct := by
    rw [List.take_append_of_le_length (Nat.le_refl _), List.take_length]
  have hcdrop : (ct ++ tg).drop ct.length = tg := by
    rw [List.drop_append_of_le_length (Nat.le_refl _), List.drop_length, List.nil_append]
  unfold Handler.openFrame
  rw [if_neg (by rw [hlen]; simp [nonceLen]), if_neg (by rw [hlen]; omega)]
  simp only [ht, hd, hrl, e16, hctake, hcdrop]
  rw [if_neg (by simp [tagLen])]

theorem sealedBuffer_take (nonce E T rest : List Nat)
    (hn : nonce.length = 12) (hT : T.length = 16) :
    (nonce ++ (E ++ (T ++ rest))).take (E.length + 28) = nonce ++ (E ++ T) := by
  have ha : nonce ++ (E ++ (T ++ rest)) = (nonce ++ (E ++ T)) ++ rest := by
    simp [List.append_assoc]
  have hl : (nonce ++ (E ++ T)).length = E.length + 28 := by
    simp [hn, hT]; omega
  rw [ha, ← hl, List.take_append_of_le_length (Nat.le_refl _), List.take_length]

theorem openFrame_tampered (key : List Nat) {nonce : List Nat} (E : List Nat) (j p : Nat)
    (hn : nonce.length = 12) (hmax : E.length + 28 ≤ MAX_MESSAGE_SIZE)
    (hj : j < E.length + 28) (hp : p ≠ 0) :
    Handler.openFrame key
      ((nonce ++ (E ++ tagBytes key nonce E)).set j
        ((nonce ++ (E ++ tagBytes key nonce E)).getD j 0 ^^^ p)) = .err "decrypt failed" := by
  have hTl := tagBytes_length key E hn
  rcases Nat.lt_or_ge j 12 with h12 | h12
  · have hjn : j < nonce.length := by omega
    have hg : (nonce ++ (E ++ tagBytes key nonce E)).getD j 0 = nonce.getD j 0 :=
      getD_append_left hjn
    rw [hg, List.set_append_left _ _ hjn]
    rw [Handler.openFrame_append key (by rw [List.length_set]; exact hn) hTl hmax]
    rw [if_neg]
    intro heq
    unfold tagBytes at heq
    exact mixAux_set_xor_ne (prf key) 0 hjn hp (List.append_cancel_right heq).symm
  · rcases Nat.lt_or_ge j (12 + E.length) with hjc | hjc
    · have hns : nonce.length ≤ j := by omega
      have hjE : j - 12 < E.length := by omega
      have hg : (nonce ++ (E ++ tagBytes key nonce E)).getD j 0 = E.getD (j - 12) 0 := by
        rw [getD_append_right hns, hn, getD_append_left hjE]
      rw [hg, List.set_append_right _ _ hns, hn, List.set_append_left _ _ hjE]
      rw [Handler.openFrame_append key hn hTl (by rw [List.length_set]; exact hmax)]
      rw [if_neg]
      intro heq
      unfold tagBytes at heq
      have h2 := List.append_cancel_left heq
      have h3 : xorFold E = xorFold (E.set (j - 12) (E.getD (j - 12) 0 ^^^ p)) := by
        simpa using h2
      rw [xorFold_set hjE] at h3
      exact xor_pow_ne hp h3.symm
    · have hns : nonce.length ≤ j := by omega
      have hnsE : E.length ≤ j - 12 := by omega
      have hm : j - 12 - E.length < 16 := by omega
      have hg : (nonce ++ (E ++ tagBytes key nonce E)).getD j 0
          = (tagBytes key nonce E).getD (j - 12 - E.length) 0 := by
        rw [getD_append_right hns, hn, getD_append_right hnsE]
      rw [hg, List.set_append_right _ _ hns, hn, List.set_append_right _ _ hnsE]
      rw [Handler.openFrame_append key hn (by rw [List.length_set]; exact hTl) hmax]
      rw [if_neg]
      intro heq
      exact set_getD_xor_ne (by rw [hTl]; exact hm) hp heq

theorem openFrame_too_short (key buf : List Nat) (h : buf.length < 12) :
    Handler.openFrame key buf = .err "msg not long enough to contain nonce" := by
  unfold Handler.openFrame
  rw [if_pos (by simpa [nonceLen] using h)]

theorem openFrame_too_large (key buf : List Nat) (h : buf.length > MAX_MESSAGE_SIZE) :
    Handler.openFrame key buf = .err "max message size exceeded" := by
  have hM : MAX_MESSAGE_SIZE = 1024000 := rfl
  unfold Handler.openFrame
  rw [if_neg (by simp only [nonceLen]; omega), if_pos h]

theorem seal_then_open (key nonce buf : List Nat) (L : Nat)
    (hn : nonce.length = 12) (hL28 : L + 28 ≤ MAX_MESSAGE_SIZE) (hb : L + 28 ≤ buf.length) :
    ∃ b, Handler.seal key nonce buf L = .ok b (L + 28) ∧
      Handler.openFrame key (b.take (L + 28)) = .ok (buf.take L) L := by
  have hEl : (encryptBytes key nonce (buf.take L)).length = L := by
    rw [encryptBytes_length, List.length_take]
    omega
  have hTl := tagBytes_length key (encryptBytes key nonce (buf.take L)) hn
  refine ⟨_, Handler.seal_eq_ok key nonce buf L hb, ?_⟩
  have htake := sealedBuffer_take nonce (encryptBytes key nonce (buf.take L))
    (tagBytes key nonce (encryptBytes key nonce (buf.take L))) (buf.drop (L + 28)) hn hTl
  rw [hEl] at htake
  rw [htake, Handler.openFrame_append key hn hTl (by rw [hEl]; omega)]
  rw [if_pos rfl, decryptBytes_encryptBytes, hEl]

end crypto

/-! Claim theorems. -/

open crypto

/-- C1: for every plaintext and every length `L` with
`1 ≤ L ≤ MAX_MESSAGE_SIZE - 28`, sealing the first `L` bytes of a
sufficiently large buffer with `Handler::seal` and passing the
resulting frame to `Handler::open` under the same key succeeds,
returns exactly `L`, and yields the original first `L` bytes of the
buffer as the plaintext. -/
theorem seal_open_roundtrip (key nonce buf : List Nat) (L : Nat)
    (hn : nonce.length = 12) (h1 : 1 ≤ L) (hL : L ≤ MAX_MESSAGE_SIZE - 28)
    (hb : L + 28 ≤ buf.length) :
    ∃ b, Handler.seal key nonce buf L = .ok b (L + 28) ∧
      Handler.openFrame key (b.take (L + 28)) = .ok (buf.take L) L := by
  have hM : MAX_MESSAGE_SIZE = 1024000 := rfl
  exact seal_then_open key nonce buf L hn (by omega) hb

/-- Closed witness for C1: a 1-byte plaintext in a 29-byte buffer round-trips. -/
theorem seal_open_roundtrip_witness :
    ((List.replicate 12 0 : List Nat).length = 12 ∧ 1 ≤ 1 ∧
      1 ≤ MAX_MESSAGE_SIZE - 28 ∧ 1 + 28 ≤ (List.replicate 29 7 : List Nat).length) ∧
    ∃ b, Handler.seal [] (List.replicate 12 0) (List.replicate 29 7) 1 = .ok b (1 + 28) ∧
      Handler.openFrame [] (b.take (1 + 28)) =
        .ok ((List.replicate 29 7 : List Nat).take 1) 1 :=
  ⟨⟨by simp, by norm_num, by norm_num [MAX_MESSAGE_SIZE], by simp⟩,
    seal_open_roundtrip [] (List.replicate 12 0) (List.replicate 29 7) 1
      (by simp) (by norm_num) (by norm_num [MAX_MESSAGE_SIZE]) (by simp)⟩

/-- C2: flipping any single bit of any byte of a sealed frame — in the
nonce, ciphertext or tag region — makes `Handler::open` under the same
key fail with the DecryptionFailure error ("decrypt failed"); it never
returns altered plaintext as a success. -/
theorem seal_tamper_rejected (key nonce buf : List Nat) (L j bit : Nat)
    (hn : nonce.length = 12) (hL : L + 28 ≤ MAX_MESSAGE_SIZE) (hb : L + 28 ≤ buf.length)
    (hj : j < L + 28) (hbit : bit < 8) :
    ∃ b, Handler.seal key nonce buf L = .ok b (L + 28) ∧
      Handler.openFrame key
        ((b.take (L + 28)).set j ((b.take (L + 28)).getD j 0 ^^^ 2 ^ bit)) =
        .err "decrypt failed" := by
  have hEl : (encryptBytes key nonce (buf.take L)).length = L := by
    rw [encryptBytes_length, List.length_take]
    omega
  have hTl := tagBytes_length key (encryptBytes key nonce (buf.take L)) hn
  refine ⟨_, Handler.seal_eq_ok key nonce buf L hb, ?_⟩
  have htake := sealedBuffer_take nonce (encryptBytes key nonce (buf.take L))
    (tagBytes key nonce (encryptBytes key nonce (buf.take L))) (buf.drop (L + 28)) hn hTl
  rw [hEl] at htake
  rw [htake]
  exact openFrame_tampered key (encryptBytes key nonce (buf.take L)) j (2 ^ bit)
    hn (by rw [hEl]; exact hL) (by rw [hEl]; exact hj) (Nat.two_pow_pos bit).ne'

/-- Closed witness for C2: flipping bit 0 of byte 13 (a ciphertext byte)
of a sealed 2-byte message makes open fail with "decrypt failed". -/
theorem seal_tamper_rejected_witness :
    ((List.replicate 12 1 : List Nat).length = 12 ∧ 2 + 28 ≤ MAX_MESSAGE_SIZE ∧
      2 + 28 ≤ (List.replicate 30 9 : List Nat).length ∧ 13 < 2 + 28 ∧ 0 < 8) ∧
    ∃ b, Handler.seal [5] (List.replicate 12 1) (List.replicate 30 9) 2 = .ok b (2 + 28) ∧
      Handler.openFrame [5]
        ((b.take (2 + 28)).set 13 ((b.take (2 + 28)).getD 13 0 ^^^ 2 ^ 0)) =
        .err "decrypt failed" :=
  ⟨⟨by simp, by norm_num [MAX_MESSAGE_SIZE], by simp, by norm_num, by norm_num⟩,
    seal_tamper_rejected [5] (List.replicate 12 1) (List.replicate 30 9) 2 13 0
      (by simp) (by norm_num [MAX_MESSAGE_SIZE]) (by simp) (by norm_num) (by norm_num)⟩

/-- C3 (code evaluation): every `Transceiver` method of `Client` and
`ServerConnection` is `unimplemented!()` in the source and therefore
panics unconditionally; none seals, transmits, receives or opens
anything. -/
theorem transceiver_methods_unimplemented :
    Client.send [] = .panicked ∧ Client.recv [] = .panicked ∧
      ServerConnection.send [] = .panicked ∧ ServerConnection.recv [] = .panicked :=
  ⟨rfl, rfl, rfl, rfl⟩

/-- C4 counterexample: with a 20-byte buffer and plaintext length 10
(capacity 20 < 10 + 28), `Handler::seal` panics at the `assert!` instead
of returning an error; `err` (the code's only error value, `Err(())`,
the spec's EncryptionFailure — no BufferTooSmall value exists) is not
returned. -/
theorem seal_small_buffer_panics :
    Handler.seal [] (List.replicate 12 0) (List.replicate 20 0) 10 = .panicked ∧
      Handler.seal [] (List.replicate 12 0) (List.replicate 20 0) 10 ≠ .err := by
  have h := Handler.seal_panicked [] (List.replicate 12 0) (List.replicate 20 0) 10 (by simp)
  exact ⟨h, by rw [h]; exact fun hc => SealResult.noConfusion hc⟩

/-- C4 amended: when the buffer capacity is below `len + 28`,
`Handler::seal` panics (a failed `assert!` when capacity is below
`len + 16`, an out-of-bounds `copy_from_slice` otherwise) instead of
returning a BufferTooSmall error, and never writes past the frame (the
panic precedes any out-of-range write); with capacity at least
`len + 28` the insufficient-capacity failure does not occur and seal
succeeds. -/
theorem seal_capacity_behavior (key nonce buf : List Nat) (len : Nat) :
    (buf.length < len + 28 → Handler.seal key nonce buf len = .panicked) ∧
      (len + 28 ≤ buf.length → ∃ b, Handler.seal key nonce buf len = .ok b (len + 28)) :=
  ⟨fun h => Handler.seal_panicked key nonce buf len h,
   fun h => ⟨_, Handler.seal_eq_ok key nonce buf len h⟩⟩

/-- Closed witness for the amended C4: capacity 20 with length 10 panics,
capacity 33 with length 5 succeeds. -/
theorem seal_capacity_behavior_witness :
    ((List.replicate 20 3 : List Nat).length < 10 + 28 ∧
      Handler.seal [1] (List.replicate 12 0) (List.replicate 20 3) 10 = .panicked) ∧
    (5 + 28 ≤ (List.replicate 33 2 : List Nat).length ∧
      ∃ b, Handler.seal [1] (List.replicate 12 0) (List.replicate 33 2) 5 = .ok b (5 + 28)) :=
  ⟨⟨by simp, (seal_capacity_behavior [1] (List.replicate 12 0) (List.replicate 20 3) 10).1
      (by simp)⟩,
   ⟨by simp, (seal_capacity_behavior [1] (List.replicate 12 0) (List.replicate 33 2) 5).2
      (by simp)⟩⟩

/-- C5 counterexample: a plaintext of `MAX_MESSAGE_SIZE - 27` bytes in a
buffer of capacity `MAX_MESSAGE_SIZE` makes `Handler::seal` panic (the
`assert!` passes but the `copy_from_slice` indexes out of bounds); it
does not fail with BufferTooSmall (the code has no such error value;
its only seal error is `err`) nor reach open. -/
theorem seal_boundary_counterexample :
    Handler.seal [] (List.replicate 12 0) (List.replicate MAX_MESSAGE_SIZE 0)
        (MAX_MESSAGE_SIZE - 27) = .panicked ∧
      Handler.seal [] (List.replicate 12 0) (List.replicate MAX_MESSAGE_SIZE 0)
        (MAX_MESSAGE_SIZE - 27) ≠ .err := by
  have h := Handler.seal_panicked [] (List.replicate 12 0)
    (List.replicate MAX_MESSAGE_SIZE 0) (MAX_MESSAGE_SIZE - 27)
    (by have hM : MAX_MESSAGE_SIZE = 1024000 := rfl
        rw [List.length_replicate]; omega)
  exact ⟨h, by rw [h]; exact fun hc => SealResult.noConfusion hc⟩

/-- C5 amended: a plaintext of exactly `MAX_MESSAGE_SIZE - 28` bytes in a
buffer of capacity `MAX_MESSAGE_SIZE` succeeds end to end including
open; a plaintext of `MAX_MESSAGE_SIZE - 27` bytes panics at seal time
in that same buffer (the code asserts and indexes instead of returning
BufferTooSmall), while in a buffer of capacity at least
`MAX_MESSAGE_SIZE + 1` it seals into a `MAX_MESSAGE_SIZE + 1`-byte
frame that open rejects with MessageTooLarge. -/
theorem seal_boundary_behavior (key nonce buf : List Nat) (hn : nonce.length = 12) :
    (buf.length = MAX_MESSAGE_SIZE →
      ∃ b, Handler.seal key nonce buf (MAX_MESSAGE_SIZE - 28) = .ok b MAX_MESSAGE_SIZE ∧
        Handler.openFrame key (b.take MAX_MESSAGE_SIZE) =
          .ok (buf.take (MAX_MESSAGE_SIZE - 28)) (MAX_MESSAGE_SIZE - 28)) ∧
    (buf.length = MAX_MESSAGE_SIZE →
      Handler.seal key nonce buf (MAX_MESSAGE_SIZE - 27) = .panicked) ∧
    (MAX_MESSAGE_SIZE + 1 ≤ buf.length →
      ∃ b, Handler.seal key nonce buf (MAX_MESSAGE_SIZE - 27) =
          .ok b (MAX_MESSAGE_SIZE + 1) ∧
        Handler.openFrame key (b.take (MAX_MESSAGE_SIZE + 1)) =
          .err "max message size exceeded") := by
  have hM : MAX_MESSAGE_SIZE = 1024000 := rfl
  refine ⟨fun hb => ?_, fun hb => Handler.seal_panicked key nonce buf _ (by omega), fun hb => ?_⟩
  · have e : MAX_MESSAGE_SIZE - 28 + 28 = MAX_MESSAGE_SIZE := by omega
    have h := seal_then_open key nonce buf (MAX_MESSAGE_SIZE - 28) hn (by omega) (by omega)
    rwa [e] at h
  · have e : MAX_MESSAGE_SIZE - 27 + 28 = MAX_MESSAGE_SIZE + 1 := by omega
    have hEl : (encryptBytes key nonce (buf.take (MAX_MESSAGE_SIZE - 27))).length
        = MAX_MESSAGE_SIZE - 27 := by
      rw [encryptBytes_length, List.length_take]
      omega
    have hTl := tagBytes_length key
      (encryptBytes key nonce (buf.take (MAX_MESSAGE_SIZE - 27))) hn
    have hok := Handler.seal_eq_ok key nonce buf (MAX_MESSAGE_SIZE - 27) (by omega)
    rw [e] at hok
    refine ⟨_, hok, ?_⟩
    have htake := sealedBuffer_take nonce
      (encryptBytes key nonce (buf.take (MAX_MESSAGE_SIZE - 27)))
      (tagBytes key nonce (encryptBytes key nonce (buf.take (MAX_MESSAGE_SIZE - 27))))
      (buf.drop (MAX_MESSAGE_SIZE - 27 + 28)) hn hTl
    rw [hEl, e] at htake
    rw [htake]
    apply openFrame_too_large
    simp only [List.length_append, hn, hEl, hTl]
    omega

/-- Closed witness for the amended C5, at buffers of the two stated
capacities. -/
theorem seal_boundary_behavior_witness :
    ((List.replicate 12 4 : List Nat).length = 12 ∧
      (List.replicate MAX_MESSAGE_SIZE 1 : List Nat).length = MAX_MESSAGE_SIZE ∧
      MAX_MESSAGE_SIZE + 1 ≤ (List.replicate (MAX_MESSAGE_SIZE + 1) 1 : List Nat).length) ∧
    (∃ b, Handler.seal [2] (List.replicate 12 4) (List.replicate MAX_MESSAGE_SIZE 1)
        (MAX_MESSAGE_SIZE - 28) = .ok b MAX_MESSAGE_SIZE ∧
      Handler.openFrame [2] (b.take MAX_MESSAGE_SIZE) =
        .ok ((List.replicate MAX_MESSAGE_SIZE 1 : List Nat).take (MAX_MESSAGE_SIZE - 28))
          (MAX_MESSAGE_SIZE - 28)) ∧
    Handler.seal [2] (List.replicate 12 4) (List.replicate MAX_MESSAGE_SIZE 1)
      (MAX_MESSAGE_SIZE - 27) = .panicked ∧
    (∃ b, Handler.seal [2] (List.replicate 12 4) (List.replicate (MAX_MESSAGE_SIZE + 1) 1)
        (MAX_MESSAGE_SIZE - 27) = .ok b (MAX_MESSAGE_SIZE + 1) ∧
      Handler.openFrame [2] (b.take (MAX_MESSAGE_SIZE + 1)) =
        .err "max message size exceeded") :=
  ⟨⟨by simp, by simp, by simp⟩,
   (seal_boundary_behavior [2] (List.replicate 12 4)
      (List.replicate MAX_MESSAGE_SIZE 1) (by simp)).1 (by simp),
   (seal_boundary_behavior [2] (List.replicate 12 4)
      (List.replicate MAX_MESSAGE_SIZE 1) (by simp)).2.1 (by simp),
   (seal_boundary_behavior [2] (List.replicate 12 4)
      (List.replicate (MAX_MESSAGE_SIZE + 1) 1) (by simp)).2.2 (by simp)⟩

/-- C6: every successful seal of a length-`L` plaintext returns frame
length `L + 28`, leaves the generated nonce in bytes `[0, 12)` of the
buffer, and the ciphertext followed by the tag in bytes
`[12, 12 + L + 16)`. -/
theorem seal_frame_layout (key nonce buf : List Nat) (L : Nat)
    (hn : nonce.length = 12) (hb : L + 28 ≤ buf.length) :
    ∃ b, Handler.seal key nonce buf L = .ok b (L + 28) ∧
      b.take 12 = nonce ∧
      (b.drop 12).take (L + 16) =
        encryptBytes key nonce (buf.take L) ++
          tagBytes key nonce (encryptBytes key nonce (buf.take L)) := by
  have hEl : (encryptBytes key nonce (buf.take L)).length = L := by
    rw [encryptBytes_length, List.length_take]
    omega
  have hTl := tagBytes_length key (encryptBytes key nonce (buf.take L)) hn
  refine ⟨_, Handler.seal_eq_ok key nonce buf L hb, ?_, ?_⟩
  · rw [← hn, List.take_append_of_le_length (Nat.le_refl _), List.take_length]
  · rw [show (12 : Nat) = nonce.length from hn.symm,
      List.drop_append_of_le_length (Nat.le_refl _), List.drop_length, List.nil_append]
    have ha : encryptBytes key nonce (buf.take L) ++
        (tagBytes key nonce (encryptBytes key nonce (buf.take L)) ++ buf.drop (L + 28)) =
        (encryptBytes key nonce (buf.take L) ++
          tagBytes key nonce (encryptBytes key nonce (buf.take L))) ++ buf.drop (L + 28) := by
      simp [List.append_assoc]
    have hl : (encryptBytes key nonce (buf.take L) ++
        tagBytes key nonce (encryptBytes key nonce (buf.take L))).length = L + 16 := by
      simp [hEl, hTl]
    rw [ha, ← hl, List.take_append_of_le_length (Nat.le_refl _), List.take_length]

/-- Closed witness for C6 at a 2-byte plaintext in a 30-byte buffer. -/
theorem seal_frame_layout_witness :
    ((List.replicate 12 6 : List Nat).length = 12 ∧
      2 + 28 ≤ (List.replicate 30 8 : List Nat).length) ∧
    ∃ b, Handler.seal [3] (List.replicate 12 6) (List.replicate 30 8) 2 = .ok b (2 + 28) ∧
      b.take 12 = List.replicate 12 6 ∧
      (b.drop 12).take (2 + 16) =
        encryptBytes [3] (List.replicate 12 6) ((List.replicate 30 8 : List Nat).take 2) ++
          tagBytes [3] (List.replicate 12 6)
            (encryptBytes [3] (List.replicate 12 6)
              ((List.replicate 30 8 : List Nat).take 2)) :=
  ⟨⟨by simp, by simp⟩,
    seal_frame_layout [3] (List.replicate 12 6) (List.replicate 30 8) 2 (by simp) (by simp)⟩

/-- C7: `Handler::open` fails with FrameTooShort ("msg not long enough to
contain nonce") on every buffer shorter than the 12-byte nonce, and with
MessageTooLarge ("max message size exceeded") on every buffer longer
than `MAX_MESSAGE_SIZE`; both checks are the first two statements of
`open`, before any key or cipher use, and return without writing to the
buffer. -/
theorem open_length_guards (key buf : List Nat) :
    (buf.length < 12 →
      Handler.openFrame key buf = .err "msg not long enough to contain nonce") ∧
    (buf.length > MAX_MESSAGE_SIZE →
      Handler.openFrame key buf = .err "max message size exceeded") :=
  ⟨openFrame_too_short key buf, openFrame_too_large key buf⟩

/-- Closed witness for C7: an 11-byte buffer and a 1024001-byte buffer. -/
theorem open_length_guards_witness :
    ((List.replicate 11 5 : List Nat).length < 12 ∧
      Handler.openFrame [] (List.replicate 11 5) =
        .err "msg not long enough to contain nonce") ∧
    ((List.replicate (MAX_MESSAGE_SIZE + 1) 5 : List Nat).length > MAX_MESSAGE_SIZE ∧
      Handler.openFrame [] (List.replicate (MAX_MESSAGE_SIZE + 1) 5) =
        .err "max message size exceeded") :=
  ⟨⟨by simp, (open_length_guards [] (List.replicate 11 5)).1 (by simp)⟩,
   ⟨by simp, (open_length_guards [] (List.replicate (MAX_MESSAGE_SIZE + 1) 5)).2 (by simp)⟩⟩

/-- C8 (code evaluation): when the secure random fill fails, `gen_key`
ignores the failure and returns the zero-initialized, unfilled key —
the failure is not surfaced (the return type carries no error), and the
returned key is not the random material. -/
theorem gen_key_swallows_failure :
    gen_key false (List.replicate 32 7) = List.replicate 32 0 ∧
      gen_key false (List.replicate 32 7) ≠ List.replicate 32 7 := by
  constructor
  · rfl
  · decide

/-- C9: `PortRange::from` parses `"1000-2000"` to start 1000, end 2000,
rejects the inverted `"2000-1000"`, the non-numeric `"abc-2000"` and
the one-part `"1000"` with the InvalidPortRange errors of the source,
and every successfully parsed range satisfies `start ≤ end`. -/
theorem portrange_from_cases :
    PortRange.fromString "1000-2000" = .ok ⟨1000, 2000⟩ ∧
    PortRange.fromString "2000-1000" =
      .error "range end must be greater than or equal to start" ∧
    PortRange.fromString "abc-2000" = .error "improperly formatted port range" ∧
    PortRange.fromString "1000" =
      .error "Range must be specified in the form of \"<start>-<end>\"" ∧
    ∀ s r, PortRange.fromString s = .ok r → r.start ≤ r.stop := by
  refine ⟨rfl, rfl, rfl, rfl, ?_⟩
  intro s r h
  unfold PortRange.fromString at h
  split at h
  · split at h
    · unfold PortRange.new at h
      split at h
      · cases h
      · cases h
        simp
        omega
    · cases h
  · cases h

/-- Closed witness for C9, applying the general bound at "500-600". -/
theorem portrange_from_cases_witness :
    PortRange.fromString "500-600" = .ok ⟨500, 600⟩ ∧ (500 : Nat) ≤ 600 :=
  ⟨rfl, portrange_from_cases.2.2.2.2 "500-600" ⟨500, 600⟩ rfl⟩

/-- C10: every port `Server::get_open_port` can return lies in the
half-open interval `[start, end)` — the range's `end` is never tried —
and when `start = end` (a range `PortRange::new` accepts) the result is
`Err` for every bind oracle, so no port is ever attempted. -/
theorem get_open_port_range (bindOk : Nat → Bool) (r : PortRange) :
    (∀ p, Server.get_open_port bindOk r = .ok p → r.start ≤ p ∧ p < r.stop) ∧
    (r.start = r.stop → Server.get_open_port bindOk r = .error ()) ∧
    (∀ s : Nat, PortRange.new s s = .ok ⟨s, s⟩) := by
  refine ⟨?_, ?_, ?_⟩
  · intro p h
    unfold Server.get_open_port at h
    split at h
    case _ q hq =>
      cases h
      have hmem := List.mem_of_find?_eq_some hq
      have := List.mem_range'_1.mp hmem
      omega
    case _ => cases h
  · intro h
    unfold Server.get_open_port
    have : r.stop - r.start = 0 := by omega
    simp [this]
  · intro s
    unfold PortRange.new
    rw [if_neg (by omega)]

/-- Closed witness for C10: an always-succeeding bind oracle on the range
3..5 returns port 3, in range; on the empty range 5..5 it returns Err;
and `PortRange::new 9 9` is accepted. -/
theorem get_open_port_range_witness :
    (Server.get_open_port (fun _ => true) ⟨3, 5⟩ = .ok 3 → (3 : Nat) ≤ 3 ∧ 3 < 5) ∧
    ((3 : Nat) = 3 → True) ∧
    ((3 : Nat) ≤ 3 ∧ 3 < 5) ∧
    Server.get_open_port (fun _ => true) ⟨5, 5⟩ = .error () ∧
    PortRange.new 9 9 = .ok ⟨9, 9⟩ :=
  ⟨fun _ => (get_open_port_range (fun _ => true) ⟨3, 5⟩).1 3 rfl,
   fun _ => trivial,
   (get_open_port_range (fun _ => true) ⟨3, 5⟩).1 3 rfl,
   (get_open_port_range (fun _ => true) ⟨5, 5⟩).2.1 rfl,
   (get_open_port_range (fun _ => true) ⟨5, 5⟩).2.2 9⟩

end Shoop
